import Mathlib

/-!
Verification of the cross-thread asynchronous call bridge in src/bench.py.

The bridge has three controller variants (the asyncio controller, here `Aio`,
and the Trio/AnyIO controllers sharing a custom `Future`).  Each controller
owns a `queue.SimpleQueue` (a thread-safe unbounded FIFO; modelled as a list in
enqueue order), starts one worker thread running `worker_thread_run`, exposes
`send` (create future, enqueue it with the pre-bound callable, return the
future) and `close` (enqueue the `None` sentinel).  The worker dequeues until
the sentinel, runs each callable, and delivers the value back to the scheduler
thread through a variant-specific notification primitive.  The worker loop is
the only consumer, so a run of the loop is modelled as a recursion over the
list of enqueued items; cross-thread callbacks (`loop.call_soon_threadsafe`,
`token.run_sync_soon`, `anyio.from_thread.run_sync`) are modelled as lists of
posted callbacks that the scheduler thread later executes in posting order.
-/

namespace Bench

/-- A Python callable as it sits on the queue: zero-argument (arguments
pre-bound by functools), returning a value or raising an exception of type E. -/
abbrev Call (V E : Type) := Unit → Except E V

/-- Errors raised by the Python runtime itself, as opposed to a callable's own
exception type: asyncio.InvalidStateError from Future.set_result on a done
future, and AttributeError from reading a never-assigned slot. -/
inductive PyErr : Type where
  | invalidState
  | attributeError
deriving DecidableEq

/-- functools.partial applied to a one-argument callable that returns normally:
pre-binds the argument, yielding the zero-argument unit of work. -/
def preBind {A V E : Type} (f : A → V) (a : A) : Call V E :=
  fun _ => Except.ok (f a)

/-- Every callable in the list returns normally (raises nothing). -/
def callsOk {V E : Type} (calls : List (Call V E)) : Prop :=
  ∀ c ∈ calls, ∃ v, c () = Except.ok v

/-- The value a callable returns, when it returns normally. -/
def resultOf {V E : Type} (c : Call V E) : Option V :=
  match c () with
  | Except.ok v => some v
  | Except.error _ => none

/-- How a run of the worker thread's loop ends: still blocked in q.get()
waiting for further items, exited normally after dequeuing the None sentinel,
or killed by an exception escaping from a callable (there is no try/except in
any worker_thread_run). -/
inductive WorkerExit (E : Type) : Type where
  | blocked
  | terminated
  | raised (e : E)
deriving DecidableEq

/-- List update at an index (no-op when out of range); used for a write to the
future identified by its position in the controller's list of created futures. -/
def modifyIdx {α : Type} : List α → Nat → (α → α) → List α
  | [], _, _ => []
  | a :: l, 0, g => g a :: l
  | a :: l, n+1, g => a :: modifyIdx l n g

/-- Queue contents produced by consecutive sends whose futures got ids b,
b+1, ...: each item pairs a future's id with its pre-bound callable; `none` is
the shutdown sentinel. -/
def enumItems {V E : Type} (b : Nat) : List (Call V E) → List (Option (Nat × Call V E))
  | [] => []
  | c :: cs => some (b, c) :: enumItems (b+1) cs

/-- The (future id, value) deliveries the worker produces for callables with
ids from b; delivery stops at the first raising callable. -/
def enumOut {V E : Type} (b : Nat) : List (Call V E) → List (Nat × V)
  | [] => []
  | c :: cs =>
    match c () with
    | Except.ok v => (b, v) :: enumOut (b+1) cs
    | Except.error _ => []

/-- An asyncio future as the bridge uses it: a done flag and the stored value. -/
structure AsyncioFuture (V : Type) : Type where
  done : Bool
  value : Option V
deriving DecidableEq

/-- loop.create_future(): a fresh, pending future. -/
def AsyncioFuture.pending (V : Type) : AsyncioFuture V := ⟨false, none⟩

/-- asyncio.Future.set_result: raises InvalidStateError when already done,
otherwise marks the future done with the given value. -/
def AsyncioFuture.set_result {V : Type} (f : AsyncioFuture V) (v : V) :
    Except PyErr (AsyncioFuture V) :=
  if f.done then Except.error PyErr.invalidState else Except.ok ⟨true, some v⟩

/-- AsyncIO.set_future_result from src/bench.py: set the result only when the
future is not yet done. -/
def set_future_result {V : Type} (f : AsyncioFuture V) (v : V) :
    Except PyErr (AsyncioFuture V) :=
  if !f.done then f.set_result v else Except.ok f

/-- Running set_future_result as a loop callback; the done-guard makes the
error branch unreachable (lemma set_future_result_ok below). -/
def applyResult {V : Type} (f : AsyncioFuture V) (v : V) : AsyncioFuture V :=
  match set_future_result f v with
  | Except.ok f2 => f2
  | Except.error _ => f

/-- Awaiting an asyncio future on the scheduler thread: suspended (none) until
the future is done, then yields the stored value. -/
def awaitFuture {V : Type} (f : AsyncioFuture V) : Option V :=
  if f.done then f.value else none

/-- State of the AsyncIO controller: its SimpleQueue contents and the futures
it has created, identified by creation order. -/
structure AioState (V E : Type) : Type where
  queue : List (Option (Nat × Call V E))
  futures : List (AsyncioFuture V)

/-- AsyncIO.__init__: empty queue, no futures created yet.  The captured
running loop and the started worker thread are modelled by the worker-run and
callback-run functions below. -/
def Aio.initState (V E : Type) : AioState V E := ⟨[], []⟩

/-- AsyncIO.send: create a future, enqueue it together with the pre-bound
callable, and return the future (its id) immediately, without blocking. -/
def Aio.send {V E : Type} (s : AioState V E) (c : Call V E) : AioState V E × Nat :=
  (⟨s.queue ++ [some (s.futures.length, c)], s.futures ++ [AsyncioFuture.pending V]⟩,
   s.futures.length)

/-- AsyncIO.close: enqueue the None sentinel; nothing else (no join, no wait). -/
def Aio.close {V E : Type} (s : AioState V E) : AioState V E :=
  ⟨s.queue ++ [none], s.futures⟩

/-- A sequence of send calls issued by one caller. -/
def Aio.sendAll {V E : Type} (s : AioState V E) (calls : List (Call V E)) : AioState V E :=
  calls.foldl (fun t c => (Aio.send t c).1) s

/-- AsyncIO.worker_thread_run: dequeue until the sentinel; run each callable
and post set_future_result(future, value) to the loop via
call_soon_threadsafe — the returned list holds those postings in order.  An
exhausted item list means the worker is still blocked in q.get(); a raising
callable ends the loop with the exception escaping before anything is posted
for that item. -/
def Aio.worker_thread_run {V E : Type} :
    List (Option (Nat × Call V E)) → List (Nat × V) × WorkerExit E
  | [] => ([], WorkerExit.blocked)
  | none :: _ => ([], WorkerExit.terminated)
  | some (fid, c) :: rest =>
    match c () with
    | Except.ok v =>
      let r := Aio.worker_thread_run rest
      ((fid, v) :: r.1, r.2)
    | Except.error e => ([], WorkerExit.raised e)

/-- The event loop executing the posted set_future_result callbacks in posting
order. -/
def runCallbacks {V : Type} (futs : List (AsyncioFuture V)) :
    List (Nat × V) → List (AsyncioFuture V)
  | [] => futs
  | (fid, v) :: rest => runCallbacks (modifyIdx futs fid (fun f => applyResult f v)) rest

/-- End-to-end asyncio pipeline for one caller: send every callable, let the
worker drain the queue, then let the loop run the posted callbacks. -/
def Aio.runAll {V E : Type} (calls : List (Call V E)) :
    List (AsyncioFuture V) × WorkerExit E :=
  let s := Aio.sendAll (Aio.initState V E) calls
  let r := Aio.worker_thread_run s.queue
  (runCallbacks s.futures r.1, r.2)

theorem set_future_result_ok {V : Type} (f : AsyncioFuture V) (v : V) :
    set_future_result f v = Except.ok (if f.done then f else ⟨true, some v⟩) := by
  by_cases h : f.done <;> simp [set_future_result, AsyncioFuture.set_result, h]

/-- The custom Future shared by the Trio and AnyIO controllers: __slots__
declares event, result and call, but __init__ assigns only event and call, so
the result slot starts unassigned (none). -/
structure TrioFuture (V E : Type) : Type where
  eventSet : Bool
  result : Option V
  call : Call V E

/-- Future.__init__(event, call) with a freshly created (unset) event: the
result slot is not assigned. -/
def TrioFuture.init {V E : Type} (c : Call V E) : TrioFuture V E :=
  ⟨false, none, c⟩

/-- Reading future.result as a plain attribute: AttributeError when the slot
was never assigned. -/
def TrioFuture.getResult {V E : Type} (f : TrioFuture V E) : Except PyErr V :=
  match f.result with
  | some v => Except.ok v
  | none => Except.error PyErr.attributeError

/-- Outcome of one await of Future.aresult: still suspended in event.wait(),
or returned (the attribute read of the slot can in principle raise). -/
inductive AwaitOutcome (V : Type) : Type where
  | suspended
  | ready (r : Except PyErr V)

/-- Future.aresult: await self.event.wait(), then return self.result.  When
the event is already set the wait returns immediately (no suspension). -/
def TrioFuture.aresult {V E : Type} (f : TrioFuture V E) : AwaitOutcome V :=
  if f.eventSet then AwaitOutcome.ready f.getResult else AwaitOutcome.suspended

/-- The worker's assignment future.result = future.call() once the call has
returned v. -/
def TrioFuture.writeResult {V E : Type} (f : TrioFuture V E) (v : V) : TrioFuture V E :=
  ⟨f.eventSet, some v, f.call⟩

/-- future.event.set, run on the scheduler thread by the posted callback. -/
def TrioFuture.setEvent {V E : Type} (f : TrioFuture V E) : TrioFuture V E :=
  ⟨true, f.result, f.call⟩

/-- Observable events of a worker-loop run, used to state write-once and
ordering properties of the result slot. -/
inductive WEv (V E : Type) : Type where
  | callFinished (fid : Nat) (r : Except E V)
  | writeResult (fid : Nat) (v : V)
  | signalReady (fid : Nat)
  | sentinelSeen

/-- True exactly for the event that writes the result slot of future fid. -/
def isWriteFor {V E : Type} (fid : Nat) : WEv V E → Bool
  | WEv.writeResult f _ => f == fid
  | _ => false

/-- State of the Trio (or AnyIO) controller: queue contents and the futures it
has created, identified by creation order. -/
structure TrioState (V E : Type) : Type where
  queue : List (Option (Nat × Call V E))
  futures : List (TrioFuture V E)

/-- Trio.send: build Future(trio.Event(), functools.partial(...)), enqueue it,
and return it immediately. -/
def Trio.send {V E : Type} (s : TrioState V E) (c : Call V E) : TrioState V E × Nat :=
  (⟨s.queue ++ [some (s.futures.length, c)], s.futures ++ [TrioFuture.init c]⟩,
   s.futures.length)

/-- Trio.close: enqueue the None sentinel; nothing else. -/
def Trio.close {V E : Type} (s : TrioState V E) : TrioState V E :=
  ⟨s.queue ++ [none], s.futures⟩

/-- A sequence of send calls issued by one caller. -/
def Trio.sendAll {V E : Type} (s : TrioState V E) (calls : List (Call V E)) : TrioState V E :=
  calls.foldl (fun t c => (Trio.send t c).1) s

/-- Result of a Trio/AnyIO worker-loop run: the futures after the worker's
result-slot writes, the event.set callbacks posted to the scheduler thread (in
posting order), the event trace, and how the loop ended. -/
structure WorkerRun (V E : Type) : Type where
  futures : List (TrioFuture V E)
  posted : List Nat
  trace : List (WEv V E)
  exit : WorkerExit E

/-- Trio.worker_thread_run: dequeue until the sentinel; run the callable,
assign future.result, then post future.event.set to the scheduler via
token.run_sync_soon.  A raising callable ends the loop before any write or
posting for that item. -/
def Trio.worker_thread_run {V E : Type} (futs : List (TrioFuture V E)) :
    List (Option (Nat × Call V E)) → WorkerRun V E
  | [] => ⟨futs, [], [], WorkerExit.blocked⟩
  | none :: _ => ⟨futs, [], [WEv.sentinelSeen], WorkerExit.terminated⟩
  | some (fid, c) :: rest =>
    match c () with
    | Except.ok v =>
      let r := Trio.worker_thread_run (modifyIdx futs fid (fun f => f.writeResult v)) rest
      ⟨r.futures, fid :: r.posted,
       WEv.callFinished fid (Except.ok v) :: WEv.writeResult fid v ::
         WEv.signalReady fid :: r.trace,
       r.exit⟩
    | Except.error e =>
      ⟨futs, [], [WEv.callFinished fid (Except.error e)], WorkerExit.raised e⟩

/-- AnyIO.worker_thread_run: the same loop, notifying the scheduler via
anyio.from_thread.run_sync(future.event.set, token) instead. -/
def Anyio.worker_thread_run {V E : Type} (futs : List (TrioFuture V E)) :
    List (Option (Nat × Call V E)) → WorkerRun V E
  | [] => ⟨futs, [], [], WorkerExit.blocked⟩
  | none :: _ => ⟨futs, [], [WEv.sentinelSeen], WorkerExit.terminated⟩
  | some (fid, c) :: rest =>
    match c () with
    | Except.ok v =>
      let r := Anyio.worker_thread_run (modifyIdx futs fid (fun f => f.writeResult v)) rest
      ⟨r.futures, fid :: r.posted,
       WEv.callFinished fid (Except.ok v) :: WEv.writeResult fid v ::
         WEv.signalReady fid :: r.trace,
       r.exit⟩
    | Except.error e =>
      ⟨futs, [], [WEv.callFinished fid (Except.error e)], WorkerExit.raised e⟩

/-- The scheduler thread executing the posted event.set callbacks in posting
order. -/
def runEventCallbacks {V E : Type} (futs : List (TrioFuture V E)) :
    List Nat → List (TrioFuture V E)
  | [] => futs
  | fid :: rest => runEventCallbacks (modifyIdx futs fid TrioFuture.setEvent) rest

/-- End-to-end Trio pipeline for one caller: send every callable, let the
worker drain the queue, then let the scheduler run the posted callbacks. -/
def Trio.runAll {V E : Type} (calls : List (Call V E)) : List (TrioFuture V E) :=
  let s := Trio.sendAll ⟨[], []⟩ calls
  let r := Trio.worker_thread_run s.futures s.queue
  runEventCallbacks r.futures r.posted

/-- A code object on the Python call stack: anyio.run.__code__ or anything
else. -/
inductive FrameCode : Type where
  | anyioRun
  | otherCode (n : Nat)
deriving DecidableEq

/-- The frame walk inside Auto: starting from sys._getframe() and following
f_back, is some frame's f_code the code object of anyio.run? -/
def framesContainAnyioRun : List FrameCode → Bool
  | [] => false
  | f :: rest => if f = FrameCode.anyioRun then true else framesContainAnyioRun rest

/-- The three controller variants Auto can construct. -/
inductive Variant : Type where
  | anyio
  | trio
  | asyncio
deriving DecidableEq

/-- The runtime facts Auto's probes can observe: the call stack, and whether
anyio.lowlevel.current_token(), trio.lowlevel.current_trio_token() and
asyncio.get_running_loop() succeed (each raises when no matching scheduler is
active on this thread; constructing the corresponding controller performs the
same probe call, so success of the probe and of construction coincide). -/
structure DetectEnv : Type where
  stack : List FrameCode
  anyioTokenOk : Bool
  trioTokenOk : Bool
  asyncioLoopOk : Bool

/-- Auto from src/bench.py: first try block walks the call stack and, on
finding an anyio.run frame, returns AnyIO() (whose constructor failure is
swallowed by the bare except, falling through); the second try returns Trio()
when trio.lowlevel.current_trio_token() succeeds; the third returns AsyncIO()
when asyncio.get_running_loop() succeeds; otherwise RuntimeError is raised. -/
def Auto (env : DetectEnv) : Except String Variant :=
  if framesContainAnyioRun env.stack && env.anyioTokenOk then Except.ok Variant.anyio
  else if env.trioTokenOk then Except.ok Variant.trio
  else if env.asyncioLoopOk then Except.ok Variant.asyncio
  else Except.error "Unable to determine current Async framework"

theorem modifyIdx_append {α : Type} (l₁ : List α) (a : α) (l₂ : List α) (g : α → α) :
    modifyIdx (l₁ ++ a :: l₂) l₁.length g = l₁ ++ g a :: l₂ := by
  induction l₁ with
  | nil => rfl
  | cons x l ih => simp [modifyIdx, ih]

theorem callsOk_tail {V E : Type} {c : Call V E} {cs : List (Call V E)}
    (hok : callsOk (c :: cs)) : callsOk cs :=
  fun d hd => hok d (List.mem_cons_of_mem c hd)

theorem callsOk_head {V E : Type} {c : Call V E} {cs : List (Call V E)}
    (hok : callsOk (c :: cs)) : ∃ v, c () = Except.ok v :=
  hok c (List.mem_cons_self c cs)

theorem aio_worker_run_ok {V E : Type} (cs : List (Call V E)) :
    ∀ b : Nat, callsOk cs →
      Aio.worker_thread_run (enumItems b cs) = (enumOut b cs, WorkerExit.blocked) := by
  induction cs with
  | nil => intro b _; rfl
  | cons c cs ih =>
    intro b hok
    obtain ⟨v, hv⟩ := callsOk_head hok
    simp [enumItems, enumOut, Aio.worker_thread_run, hv, ih (b+1) (callsOk_tail hok)]

theorem aio_worker_run_sentinel {V E : Type} (cs : List (Call V E)) :
    ∀ (b : Nat) (after : List (Option (Nat × Call V E))), callsOk cs →
      Aio.worker_thread_run (enumItems b cs ++ none :: after)
        = (enumOut b cs, WorkerExit.terminated) := by
  induction cs with
  | nil => intro b after _; rfl
  | cons c cs ih =>
    intro b after hok
    obtain ⟨v, hv⟩ := callsOk_head hok
    simp [enumItems, enumOut, Aio.worker_thread_run, hv,
      ih (b+1) after (callsOk_tail hok)]

theorem aio_worker_run_raise {V E : Type} (pre : List (Call V E)) :
    ∀ (b : Nat) (bad : Call V E) (post : List (Call V E)) (e : E), callsOk pre →
      bad () = Except.error e →
      Aio.worker_thread_run (enumItems b (pre ++ bad :: post))
        = (enumOut b pre, WorkerExit.raised e) := by
  induction pre with
  | nil =>
    intro b bad post e _ hbad
    simp [enumItems, enumOut, Aio.worker_thread_run, hbad]
  | cons c cs ih =>
    intro b bad post e hok hbad
    obtain ⟨v, hv⟩ := callsOk_head hok
    simp [enumItems, enumOut, Aio.worker_thread_run, hv,
      ih (b+1) bad post e (callsOk_tail hok) hbad]

theorem enumOut_fst {V E : Type} (cs : List (Call V E)) :
    ∀ b : Nat, callsOk cs →
      (enumOut b cs).map Prod.fst = List.range' b cs.length := by
  induction cs with
  | nil => intro b _; rfl
  | cons c cs ih =>
    intro b hok
    obtain ⟨v, hv⟩ := callsOk_head hok
    simp [enumOut, hv, List.range'_succ, ih (b+1) (callsOk_tail hok)]

theorem enumOut_get {V E : Type} (cs : List (Call V E)) :
    ∀ (b i : Nat) (c : Call V E) (v : V), callsOk cs →
      cs[i]? = some c → c () = Except.ok v →
      (enumOut b cs)[i]? = some (b + i, v) := by
  induction cs with
  | nil => intro b i c v _ hc _; simp at hc
  | cons d cs ih =>
    intro b i c v hok hc hv
    obtain ⟨w, hw⟩ := callsOk_head hok
    cases i with
    | zero =>
      simp at hc
      subst hc
      simp [enumOut, hv]
    | succ j =>
      simp only [List.getElem?_cons_succ] at hc
      have := ih (b+1) j c v (callsOk_tail hok) hc hv
      simp only [enumOut, hw]
      simpa [Nat.add_assoc, Nat.add_comm 1 j] using this

theorem enumOut_mem_lt {V E : Type} (cs : List (Call V E)) :
    ∀ (b fid : Nat) (v : V), (fid, v) ∈ enumOut b cs → fid < b + cs.length := by
  induction cs with
  | nil => intro b fid v h; simp [enumOut] at h
  | cons c cs ih =>
    intro b fid v h
    cases hc : c () with
    | ok w =>
      rw [show enumOut b (c :: cs) = (b, w) :: enumOut (b+1) cs by simp [enumOut, hc]] at h
      rcases List.mem_cons.mp h with h1 | h2
      · cases h1; simp only [List.length_cons]; omega
      · have := ih (b+1) fid v h2; simp only [List.length_cons]; omega
    | error e =>
      rw [show enumOut b (c :: cs) = [] by simp [enumOut, hc]] at h
      simp at h

theorem aio_sendAll_eq {V E : Type} (calls : List (Call V E)) :
    ∀ (q : List (Option (Nat × Call V E))) (fs : List (AsyncioFuture V)),
      Aio.sendAll ⟨q, fs⟩ calls =
        ⟨q ++ enumItems fs.length calls,
         fs ++ List.replicate calls.length (AsyncioFuture.pending V)⟩ := by
  induction calls with
  | nil => intro q fs; simp [Aio.sendAll, enumItems]
  | cons c cs ih =>
    intro q fs
    rw [show Aio.sendAll ⟨q, fs⟩ (c :: cs)
          = Aio.sendAll ⟨q ++ [some (fs.length, c)], fs ++ [AsyncioFuture.pending V]⟩ cs
        from rfl]
    rw [ih]
    simp [enumItems, List.replicate_succ, List.append_assoc]

theorem applyResult_pending {V : Type} (v : V) :
    applyResult (AsyncioFuture.pending V) v = ⟨true, some v⟩ := rfl

theorem runCallbacks_eq {V E : Type} (calls : List (Call V E)) :
    callsOk calls → ∀ fs₁ : List (AsyncioFuture V),
      runCallbacks (fs₁ ++ List.replicate calls.length (AsyncioFuture.pending V))
          (enumOut fs₁.length calls)
        = fs₁ ++ calls.map (fun c => ⟨true, resultOf c⟩) := by
  induction calls with
  | nil => intro _ fs₁; simp [runCallbacks, enumOut]
  | cons c cs ih =>
    intro hok fs₁
    obtain ⟨v, hv⟩ := callsOk_head hok
    rw [show enumOut fs₁.length (c :: cs) = (fs₁.length, v) :: enumOut (fs₁.length + 1) cs
        by simp [enumOut, hv]]
    rw [show List.replicate (c :: cs).length (AsyncioFuture.pending V)
          = AsyncioFuture.pending V :: List.replicate cs.length (AsyncioFuture.pending V)
        from rfl]
    rw [show runCallbacks (fs₁ ++ AsyncioFuture.pending V :: List.replicate cs.length (AsyncioFuture.pending V))
          ((fs₁.length, v) :: enumOut (fs₁.length + 1) cs)
          = runCallbacks (modifyIdx (fs₁ ++ AsyncioFuture.pending V :: List.replicate cs.length (AsyncioFuture.pending V))
              fs₁.length (fun f => applyResult f v))
              (enumOut (fs₁.length + 1) cs)
        from rfl]
    rw [modifyIdx_append, applyResult_pending]
    have hlen : fs₁.length + 1 = (fs₁ ++ [(⟨true, some v⟩ : AsyncioFuture V)]).length := by simp
    rw [show fs₁ ++ (⟨true, some v⟩ : AsyncioFuture V) :: List.replicate cs.length (AsyncioFuture.pending V)
          = (fs₁ ++ [(⟨true, some v⟩ : AsyncioFuture V)]) ++ List.replicate cs.length (AsyncioFuture.pending V)
        by simp]
    rw [hlen, ih (callsOk_tail hok)]
    simp [resultOf, hv]

theorem aio_runAll_eq {V E : Type} (calls : List (Call V E)) (hok : callsOk calls) :
    Aio.runAll calls
      = (calls.map (fun c => ⟨true, resultOf c⟩), WorkerExit.blocked) := by
  unfold Aio.runAll
  rw [show Aio.initState V E = ⟨[], []⟩ from rfl, aio_sendAll_eq]
  simp only [List.nil_append, List.length_nil]
  rw [aio_worker_run_ok calls 0 hok]
  have := runCallbacks_eq calls hok []
  simpa using this

theorem trio_trace_cons_ok {V E : Type} {c : Call V E} {v : V} (hv : c () = Except.ok v)
    (b : Nat) (futs : List (TrioFuture V E)) (cs : List (Call V E)) :
    (Trio.worker_thread_run futs (enumItems b (c :: cs))).trace
      = WEv.callFinished b (Except.ok v) :: WEv.writeResult b v :: WEv.signalReady b ::
        (Trio.worker_thread_run (modifyIdx futs b (fun f => f.writeResult v))
          (enumItems (b+1) cs)).trace := by
  simp [enumItems, Trio.worker_thread_run, hv]

theorem trio_trace_cons_error {V E : Type} {c : Call V E} {e : E} (hv : c () = Except.error e)
    (b : Nat) (futs : List (TrioFuture V E)) (cs : List (Call V E)) :
    (Trio.worker_thread_run futs (enumItems b (c :: cs))).trace
      = [WEv.callFinished b (Except.error e)] := by
  simp [enumItems, Trio.worker_thread_run, hv]

theorem trio_trace_write_ge {V E : Type} (cs : List (Call V E)) :
    ∀ (b : Nat) (futs : List (TrioFuture V E)) (fid : Nat) (v : V),
      WEv.writeResult fid v ∈ (Trio.worker_thread_run futs (enumItems b cs)).trace →
      b ≤ fid := by
  induction cs with
  | nil =>
    intro b futs fid v h
    simp [enumItems, Trio.worker_thread_run] at h
  | cons c cs ih =>
    intro b futs fid v h
    cases hv : c () with
    | ok w =>
      rw [trio_trace_cons_ok hv] at h
      simp only [List.mem_cons] at h
      rcases h with h1 | h1 | h1 | h1
      · exact absurd h1 (by simp)
      · cases h1; omega
      · exact absurd h1 (by simp)
      · have := ih (b+1) _ fid v h1; omega
    | error e =>
      rw [trio_trace_cons_error hv] at h
      simp at h

theorem trio_trace_write_count {V E : Type} (cs : List (Call V E)) :
    ∀ (b : Nat) (futs : List (TrioFuture V E)), callsOk cs → ∀ i, i < cs.length →
      ((Trio.worker_thread_run futs (enumItems b cs)).trace.countP (isWriteFor (b+i))) = 1 := by
  induction cs with
  | nil => intro b futs _ i hi; simp at hi
  | cons c cs ih =>
    intro b futs hok i hi
    obtain ⟨v, hv⟩ := callsOk_head hok
    rw [trio_trace_cons_ok hv]
    cases i with
    | zero =>
      have hz : ((Trio.worker_thread_run (modifyIdx futs b (fun f => f.writeResult v))
          (enumItems (b+1) cs)).trace.countP (isWriteFor b)) = 0 := by
        rw [List.countP_eq_zero]
        intro a ha
        cases a with
        | writeResult fid w =>
          have := trio_trace_write_ge cs (b+1) _ fid w ha
          simp [isWriteFor]
          omega
        | callFinished fid r => simp [isWriteFor]
        | signalReady fid => simp [isWriteFor]
        | sentinelSeen => simp [isWriteFor]
      simp only [Nat.add_zero]
      simp [List.countP_cons, isWriteFor, hz]
    | succ j =>
      have hj : j < cs.length := by simpa using Nat.lt_of_succ_lt_succ hi
      have := ih (b+1) (modifyIdx futs b (fun f => f.writeResult v)) (callsOk_tail hok) j hj
      rw [show (b+1) + j = b + (j+1) by omega] at this
      have hb : (b == b + (j+1)) = false := by
        simp only [beq_eq_false_iff_ne, ne_eq]
        omega
      simp [List.countP_cons, isWriteFor, hb, this]

theorem trio_trace_write_after_call {V E : Type} (cs : List (Call V E)) :
    ∀ (b : Nat) (futs : List (TrioFuture V E)) (fid : Nat) (v : V),
      WEv.writeResult fid v ∈ (Trio.worker_thread_run futs (enumItems b cs)).trace →
      List.Sublist [WEv.callFinished fid (Except.ok v), WEv.writeResult fid v]
        (Trio.worker_thread_run futs (enumItems b cs)).trace := by
  induction cs with
  | nil =>
    intro b futs fid v h
    simp [enumItems, Trio.worker_thread_run] at h
  | cons c cs ih =>
    intro b futs fid v h
    cases hv : c () with
    | ok w =>
      rw [trio_trace_cons_ok hv] at h ⊢
      simp only [List.mem_cons] at h
      rcases h with h1 | h1 | h1 | h1
      · exact absurd h1 (by simp)
      · obtain ⟨hfid, hw⟩ : fid = b ∧ v = w := by
          injection h1 with h2 h3
          exact ⟨h2, h3⟩
        subst hfid; subst hw
        exact List.Sublist.cons₂ _ (List.Sublist.cons₂ _ (List.nil_sublist _))
      · exact absurd h1 (by simp)
      · have hsub := ih (b+1) _ fid v h1
        exact ((hsub.cons _).cons _).cons _
    | error e =>
      rw [trio_trace_cons_error hv] at h
      simp at h

theorem anyio_worker_eq_trio {V E : Type} (q : List (Option (Nat × Call V E))) :
    ∀ futs : List (TrioFuture V E),
      Anyio.worker_thread_run futs q = Trio.worker_thread_run futs q := by
  induction q with
  | nil => intro futs; rfl
  | cons item rest ih =>
    intro futs
    cases item with
    | none => rfl
    | some p =>
      obtain ⟨fid, c⟩ := p
      cases hv : c () with
      | ok v => simp [Anyio.worker_thread_run, Trio.worker_thread_run, hv, ih]
      | error e => simp [Anyio.worker_thread_run, Trio.worker_thread_run, hv]

theorem trio_sendAll_eq {V E : Type} (calls : List (Call V E)) :
    ∀ (q : List (Option (Nat × Call V E))) (fs : List (TrioFuture V E)),
      Trio.sendAll ⟨q, fs⟩ calls =
        ⟨q ++ enumItems fs.length calls, fs ++ calls.map TrioFuture.init⟩ := by
  induction calls with
  | nil => intro q fs; simp [Trio.sendAll, enumItems]
  | cons c cs ih =>
    intro q fs
    rw [show Trio.sendAll ⟨q, fs⟩ (c :: cs)
          = Trio.sendAll ⟨q ++ [some (fs.length, c)], fs ++ [TrioFuture.init c]⟩ cs
        from rfl]
    rw [ih]
    simp [enumItems, List.append_assoc]

theorem trio_worker_closed_form {V E : Type} (cs : List (Call V E)) :
    callsOk cs → ∀ fs₁ : List (TrioFuture V E),
      (Trio.worker_thread_run (fs₁ ++ cs.map TrioFuture.init)
          (enumItems fs₁.length cs)).futures
        = fs₁ ++ cs.map (fun c => ⟨false, resultOf c, c⟩) ∧
      (Trio.worker_thread_run (fs₁ ++ cs.map TrioFuture.init)
          (enumItems fs₁.length cs)).posted
        = List.range' fs₁.length cs.length := by
  induction cs with
  | nil => intro _ fs₁; exact ⟨by simp [enumItems, Trio.worker_thread_run], by
      simp [enumItems, Trio.worker_thread_run]⟩
  | cons c cs ih =>
    intro hok fs₁
    obtain ⟨v, hv⟩ := callsOk_head hok
    have hmod : modifyIdx (fs₁ ++ TrioFuture.init c :: cs.map TrioFuture.init)
        fs₁.length (fun f => f.writeResult v)
        = (fs₁ ++ [(⟨false, some v, c⟩ : TrioFuture V E)]) ++ cs.map TrioFuture.init := by
      rw [modifyIdx_append]
      simp [TrioFuture.init, TrioFuture.writeResult]
    have hstep : Trio.worker_thread_run (fs₁ ++ (c :: cs).map TrioFuture.init)
          (enumItems fs₁.length (c :: cs))
        = ⟨(Trio.worker_thread_run ((fs₁ ++ [(⟨false, some v, c⟩ : TrioFuture V E)]) ++ cs.map TrioFuture.init)
              (enumItems (fs₁.length + 1) cs)).futures,
           fs₁.length :: (Trio.worker_thread_run ((fs₁ ++ [(⟨false, some v, c⟩ : TrioFuture V E)]) ++ cs.map TrioFuture.init)
              (enumItems (fs₁.length + 1) cs)).posted,
           WEv.callFinished fs₁.length (Except.ok v) :: WEv.writeResult fs₁.length v ::
             WEv.signalReady fs₁.length ::
             (Trio.worker_thread_run ((fs₁ ++ [(⟨false, some v, c⟩ : TrioFuture V E)]) ++ cs.map TrioFuture.init)
              (enumItems (fs₁.length + 1) cs)).trace,
           (Trio.worker_thread_run ((fs₁ ++ [(⟨false, some v, c⟩ : TrioFuture V E)]) ++ cs.map TrioFuture.init)
              (enumItems (fs₁.length + 1) cs)).exit⟩ := by
      rw [show (c :: cs).map TrioFuture.init = TrioFuture.init c :: cs.map TrioFuture.init from rfl]
      rw [show enumItems fs₁.length (c :: cs)
            = some (fs₁.length, c) :: enumItems (fs₁.length + 1) cs from rfl]
      simp [Trio.worker_thread_run, hv, hmod]
    have hlen : fs₁.length + 1 = (fs₁ ++ [(⟨false, some v, c⟩ : TrioFuture V E)]).length := by simp
    obtain ⟨ihf, ihp⟩ := ih (callsOk_tail hok) (fs₁ ++ [(⟨false, some v, c⟩ : TrioFuture V E)])
    rw [hlen] at hstep
    constructor
    · rw [hstep]
      simp only []
      rw [ihf]
      simp [resultOf, hv]
    · rw [hstep]
      simp only []
      rw [ihp]
      rw [← hlen]
      simp [List.range'_succ, resultOf, hv]

theorem runEventCallbacks_eq {V E : Type} (ws : List (TrioFuture V E)) :
    ∀ fs₁ : List (TrioFuture V E),
      runEventCallbacks (fs₁ ++ ws) (List.range' fs₁.length ws.length)
        = fs₁ ++ ws.map TrioFuture.setEvent := by
  induction ws with
  | nil => intro fs₁; simp [runEventCallbacks]
  | cons w ws ih =>
    intro fs₁
    rw [show (w :: ws).length = ws.length + 1 from rfl, List.range'_succ]
    rw [show runEventCallbacks (fs₁ ++ w :: ws)
          (fs₁.length :: List.range' (fs₁.length + 1) ws.length)
          = runEventCallbacks (modifyIdx (fs₁ ++ w :: ws) fs₁.length TrioFuture.setEvent)
              (List.range' (fs₁.length + 1) ws.length)
        from rfl]
    rw [modifyIdx_append]
    rw [show fs₁ ++ TrioFuture.setEvent w :: ws
          = (fs₁ ++ [TrioFuture.setEvent w]) ++ ws by simp]
    rw [show fs₁.length + 1 = (fs₁ ++ [TrioFuture.setEvent w]).length by simp]
    rw [ih]
    simp

theorem trio_runAll_eq {V E : Type} (calls : List (Call V E)) (hok : callsOk calls) :
    Trio.runAll calls = calls.map (fun c => ⟨true, resultOf c, c⟩) := by
  unfold Trio.runAll
  rw [trio_sendAll_eq]
  simp only [List.nil_append, List.length_nil]
  obtain ⟨hf, hp⟩ := trio_worker_closed_form calls hok []
  simp only [List.nil_append, List.length_nil] at hf hp
  rw [hf, hp]
  have := runEventCallbacks_eq (calls.map (fun c => (⟨false, resultOf c, c⟩ : TrioFuture V E))) []
  simp only [List.nil_append, List.length_nil, List.length_map] at this
  rw [this, List.map_map]
  rfl

/-- C1: for every callable with pre-bound arguments submitted through send,
awaiting the returned handle on the scheduler thread yields exactly the value
the callable computed on the worker thread — in the asyncio pipeline and in the
Trio/AnyIO pipeline alike, for every returned value; in particular a callable
adding 2 to the pre-bound input 5 awaits to 7 (witness below). -/
theorem send_await_returns_value {V E : Type} (calls : List (Call V E))
    (hok : callsOk calls) (i : Nat) (c : Call V E) (v : V)
    (hc : calls[i]? = some c) (hv : c () = Except.ok v) :
    ((Aio.runAll calls).1.map awaitFuture)[i]? = some (some v) ∧
    ((Trio.runAll calls).map TrioFuture.aresult)[i]?
      = some (AwaitOutcome.ready (Except.ok v)) := by
  constructor
  · rw [aio_runAll_eq calls hok]
    simp only [List.map_map, List.getElem?_map, hc, Option.map_some, Function.comp]
    simp [awaitFuture, resultOf, hv]
  · rw [trio_runAll_eq calls hok]
    simp only [List.map_map, List.getElem?_map, hc, Option.map_some, Function.comp]
    simp [TrioFuture.aresult, TrioFuture.getResult, resultOf, hv]

/-- Witness for C1 at the spec's concrete scenario: the callable (fun x => x+2)
pre-bound to 5 awaits to 7 on both pipelines. -/
theorem send_await_returns_value_check :
    ((Aio.runAll (V := Nat) (E := Unit) [preBind (fun x => x + 2) 5]).1.map awaitFuture)[0]?
        = some (some 7) ∧
    ((Trio.runAll (V := Nat) (E := Unit)
        [preBind (fun x => x + 2) 5]).map TrioFuture.aresult)[0]?
        = some (AwaitOutcome.ready (Except.ok 7)) :=
  send_await_returns_value [preBind (fun x => x + 2) 5]
    (by
      intro c hcm
      simp only [List.mem_singleton] at hcm
      subst hcm
      exact ⟨7, rfl⟩)
    0 (preBind (fun x => x + 2) 5) 7 rfl rfl

/-- C5: a resolved ResultHandle returns the cached value on every await without
re-suspending; awaiting never consults the callable (so nothing is re-executed),
and a done asyncio future likewise yields its stored value on await. -/
theorem repeated_await_cached {V E : Type} (f : TrioFuture V E) (v : V) :
    (f.eventSet = true → f.result = some v →
      TrioFuture.aresult f = AwaitOutcome.ready (Except.ok v))
    ∧ (∀ c2 : Call V E, TrioFuture.aresult ⟨f.eventSet, f.result, c2⟩ = TrioFuture.aresult f)
    ∧ (∀ g : AsyncioFuture V, g.done = true → awaitFuture g = g.value) := by
  refine ⟨?_, ?_, ?_⟩
  · intro h1 h2
    simp [TrioFuture.aresult, TrioFuture.getResult, h1, h2]
  · intro c2
    simp [TrioFuture.aresult, TrioFuture.getResult]
  · intro g hg
    simp [awaitFuture, hg]

/-- Witness for C5: a handle resolved with 7 awaits to 7 again. -/
theorem repeated_await_cached_check :
    TrioFuture.aresult (⟨true, some 7, fun _ => Except.ok 7⟩ : TrioFuture Nat Unit)
      = AwaitOutcome.ready (Except.ok 7) :=
  (repeated_await_cached (⟨true, some 7, fun _ => Except.ok 7⟩ : TrioFuture Nat Unit) 7).1
    rfl rfl

/-- C6: applying AsyncIO.set_future_result to a future that is already resolved
is a no-op: the future is returned unchanged (value and done state intact) and
no InvalidStateError is raised. -/
theorem resolve_already_resolved_noop {V : Type} (f : AsyncioFuture V) (v : V)
    (h : f.done = true) : set_future_result f v = Except.ok f := by
  simp [set_future_result, h]

/-- Witness for C6: resolving a future already holding 3 with 5 leaves it at 3. -/
theorem resolve_already_resolved_noop_check :
    set_future_result (⟨true, some 3⟩ : AsyncioFuture Nat) 5
      = Except.ok (⟨true, some 3⟩ : AsyncioFuture Nat) :=
  resolve_already_resolved_noop (⟨true, some 3⟩ : AsyncioFuture Nat) 5 rfl

/-- C9: the custom Future's result slot is declared but never initialized at
construction: it is none after Future.__init__, reading it raises
AttributeError, and awaiting (the only safe access path) suspends before
resolution instead of raising, then yields the value once the worker has
written the slot and the event is set. -/
theorem future_result_unset_until_written {V E : Type} (c : Call V E) (v : V) :
    (TrioFuture.init c).result = none
    ∧ (TrioFuture.init c).getResult = Except.error PyErr.attributeError
    ∧ TrioFuture.aresult (TrioFuture.init c) = AwaitOutcome.suspended
    ∧ TrioFuture.aresult (((TrioFuture.init c).writeResult v).setEvent)
        = AwaitOutcome.ready (Except.ok v) :=
  ⟨rfl, rfl, rfl, rfl⟩

/-- C8: when the auto-detection finds no anyio.run frame, no trio token and no
running asyncio loop, Auto raises RuntimeError and constructs no controller. -/
theorem auto_no_scheduler_raises (env : DetectEnv)
    (h1 : framesContainAnyioRun env.stack = false)
    (h2 : env.trioTokenOk = false) (h3 : env.asyncioLoopOk = false) :
    Auto env = Except.error "Unable to determine current Async framework"
    ∧ ∀ vt : Variant, Auto env ≠ Except.ok vt := by
  have herr : Auto env = Except.error "Unable to determine current Async framework" := by
    simp [Auto, h1, h2, h3]
  refine ⟨herr, fun vt hcontra => ?_⟩
  rw [herr] at hcontra
  exact Except.noConfusion hcontra

/-- Witness for C8: a stack without anyio.run and no tokens yields the error. -/
theorem auto_no_scheduler_raises_check :
    Auto ⟨[FrameCode.otherCode 0], false, false, false⟩
      = Except.error "Unable to determine current Async framework" :=
  (auto_no_scheduler_raises ⟨[FrameCode.otherCode 0], false, false, false⟩ rfl rfl rfl).1

/-- C10: Auto selects exactly one variant by fixed precedence — AnyIO when an
anyio.run frame is on the stack (and the anyio token probe, which AnyIO's own
constructor repeats, succeeds), otherwise Trio when a trio token is obtainable,
otherwise asyncio when a loop is running — and the choice is a deterministic
function of the detection outcome. -/
theorem auto_selection_precedence (env : DetectEnv) :
    (framesContainAnyioRun env.stack = true → env.anyioTokenOk = true →
      Auto env = Except.ok Variant.anyio)
    ∧ (framesContainAnyioRun env.stack = false → env.trioTokenOk = true →
      Auto env = Except.ok Variant.trio)
    ∧ (framesContainAnyioRun env.stack = false → env.trioTokenOk = false →
      env.asyncioLoopOk = true → Auto env = Except.ok Variant.asyncio)
    ∧ (∀ env2 : DetectEnv, env.stack = env2.stack → env.anyioTokenOk = env2.anyioTokenOk →
      env.trioTokenOk = env2.trioTokenOk → env.asyncioLoopOk = env2.asyncioLoopOk →
      Auto env = Auto env2) := by
  refine ⟨?_, ?_, ?_, ?_⟩
  · intro h1 h2
    simp [Auto, h1, h2]
  · intro h1 h2
    simp [Auto, h1, h2]
  · intro h1 h2 h3
    simp [Auto, h1, h2, h3]
  · intro env2 e1 e2 e3 e4
    cases env
    cases env2
    simp only [] at e1 e2 e3 e4
    subst e1; subst e2; subst e3; subst e4
    rfl

/-- Witness for C10: with an anyio.run frame on the stack the AnyIO variant is
chosen. -/
theorem auto_selection_precedence_check :
    Auto ⟨[FrameCode.anyioRun], true, true, true⟩ = Except.ok Variant.anyio :=
  (auto_selection_precedence ⟨[FrameCode.anyioRun], true, true, true⟩).1 rfl rfl

/-- C2: in a worker-loop run over enqueued PendingCalls, each call's result
slot is written exactly once, and only after the callable finished (every
writeResult event is preceded by the corresponding callFinished event); send
only appends a fresh future whose slot is unwritten and close never touches
the futures, so no other bridge operation writes a result slot; the AnyIO
worker loop behaves identically to the Trio one. -/
theorem result_slot_written_once_by_worker {V E : Type} (calls : List (Call V E))
    (b : Nat) (futs : List (TrioFuture V E)) (hok : callsOk calls) :
    (∀ i, i < calls.length →
      ((Trio.worker_thread_run futs (enumItems b calls)).trace.countP (isWriteFor (b+i)) = 1))
    ∧ (∀ (fid : Nat) (v : V),
        WEv.writeResult fid v ∈ (Trio.worker_thread_run futs (enumItems b calls)).trace →
        List.Sublist [WEv.callFinished fid (Except.ok v), WEv.writeResult fid v]
          (Trio.worker_thread_run futs (enumItems b calls)).trace)
    ∧ (∀ (s : TrioState V E) (c : Call V E),
        ((Trio.send s c).1).futures = s.futures ++ [TrioFuture.init c]
        ∧ (TrioFuture.init c).result = none)
    ∧ (∀ s : TrioState V E, (Trio.close s).futures = s.futures)
    ∧ (∀ q, Anyio.worker_thread_run futs q = Trio.worker_thread_run futs q) := by
  refine ⟨?_, ?_, ?_, ?_, ?_⟩
  · intro i hi
    exact trio_trace_write_count calls b futs hok i hi
  · intro fid v h
    exact trio_trace_write_after_call calls b futs fid v h
  · intro s c
    exact ⟨rfl, rfl⟩
  · intro s
    rfl
  · intro q
    exact anyio_worker_eq_trio q futs

/-- Witness for C2: one successful call's result slot is written exactly once. -/
theorem result_slot_written_once_by_worker_check :
    ((Trio.worker_thread_run ([] : List (TrioFuture Nat Unit))
        (enumItems 0 [fun _ => Except.ok 7])).trace.countP (isWriteFor 0)) = 1 :=
  (result_slot_written_once_by_worker [fun _ => Except.ok 7] 0 []
    (by
      intro c hcm
      simp only [List.mem_singleton] at hcm
      subst hcm
      exact ⟨7, rfl⟩)).1 0 (by simp)

/-- C3: for a sequence of N sends by a single caller, the worker executes the
callables strictly in submission (FIFO) order — the delivered future ids are
0, 1, ..., N-1 in order — and the i-th delivery carries exactly the i-th
callable's value. -/
theorem worker_fifo_order {V E : Type} (calls : List (Call V E)) (hok : callsOk calls) :
    ((Aio.worker_thread_run (Aio.sendAll (Aio.initState V E) calls).queue).1.map Prod.fst
        = List.range calls.length)
    ∧ (∀ (i : Nat) (c : Call V E) (v : V), calls[i]? = some c → c () = Except.ok v →
        (Aio.worker_thread_run (Aio.sendAll (Aio.initState V E) calls).queue).1[i]?
          = some (i, v)) := by
  have hq : (Aio.sendAll (Aio.initState V E) calls).queue = enumItems 0 calls := by
    rw [show Aio.initState V E = ⟨[], []⟩ from rfl, aio_sendAll_eq]
    simp
  rw [hq, aio_worker_run_ok calls 0 hok]
  constructor
  · rw [show ((enumOut 0 calls, (WorkerExit.blocked : WorkerExit E))).1 = enumOut 0 calls
        from rfl]
    rw [enumOut_fst calls 0 hok, List.range_eq_range']
  · intro i c v hc hv
    have := enumOut_get calls 0 i c v hok hc hv
    simpa using this

/-- Witness for C3: two sends execute and deliver as (0, v0), (1, v1). -/
theorem worker_fifo_order_check :
    ((Aio.worker_thread_run
        (Aio.sendAll (Aio.initState Nat Unit)
          [fun _ => Except.ok 10, fun _ => Except.ok 20]).queue).1.map Prod.fst
      = List.range 2) :=
  (worker_fifo_order [fun _ => Except.ok 10, fun _ => Except.ok 20]
    (by
      intro c hcm
      simp only [List.mem_cons, List.mem_singleton] at hcm
      rcases hcm with hcm | hcm
      · subst hcm; exact ⟨10, rfl⟩
      · simp only [List.mem_singleton, List.not_mem_nil, or_false] at hcm
        subst hcm; exact ⟨20, rfl⟩)).1

/-- C4: close() only enqueues the shutdown sentinel (no waiting on the worker);
the worker loop executes every PendingCall enqueued strictly before the
sentinel, terminates exactly upon dequeuing the sentinel — items enqueued after
it are never processed (the run is independent of them) — and without a
sentinel the loop does not terminate (it stays blocked on the queue). -/
theorem close_sentinel_shutdown {V E : Type} (s : AioState V E) (b : Nat)
    (calls : List (Call V E)) (after : List (Option (Nat × Call V E)))
    (hok : callsOk calls) :
    (Aio.close s = ⟨s.queue ++ [none], s.futures⟩)
    ∧ (Aio.worker_thread_run (enumItems b calls ++ none :: after)
        = (enumOut b calls, WorkerExit.terminated))
    ∧ (Aio.worker_thread_run (enumItems b calls)
        = (enumOut b calls, WorkerExit.blocked)) :=
  ⟨rfl, aio_worker_run_sentinel calls b after hok, aio_worker_run_ok calls b hok⟩

/-- Witness for C4: one call before the sentinel is executed, an item behind
the sentinel is not, and the loop exits. -/
theorem close_sentinel_shutdown_check :
    Aio.worker_thread_run
        (enumItems 0 ([fun _ => Except.ok 7] : List (Call Nat Unit))
          ++ none :: [some (5, fun _ => Except.ok 9)])
      = (enumOut 0 ([fun _ => Except.ok 7] : List (Call Nat Unit)), WorkerExit.terminated) :=
  (close_sentinel_shutdown (Aio.initState Nat Unit) 0 [fun _ => Except.ok 7]
    [some (5, fun _ => Except.ok 9)]
    (by
      intro c hcm
      simp only [List.mem_singleton] at hcm
      subst hcm
      exact ⟨7, rfl⟩)).2.1

/-- C7: an exception raised by a submitted callable is not caught by the base
worker loop: the loop ends with exactly that exception after delivering only
the items before the failing one, the failing call's future never receives a
delivery, and conversely a loop run over callables that all return normally
never raises. -/
theorem callable_exception_escapes_loop {V E : Type} (b : Nat)
    (pre : List (Call V E)) (bad : Call V E) (post : List (Call V E)) (e : E)
    (hok : callsOk pre) (hbad : bad () = Except.error e) :
    (Aio.worker_thread_run (enumItems b (pre ++ bad :: post))
        = (enumOut b pre, WorkerExit.raised e))
    ∧ (∀ v : V,
        (b + pre.length, v) ∉ (Aio.worker_thread_run (enumItems b (pre ++ bad :: post))).1)
    ∧ (∀ cs : List (Call V E), callsOk cs →
        (Aio.worker_thread_run (enumItems b cs)).2 = WorkerExit.blocked) := by
  have hrun := aio_worker_run_raise pre b bad post e hok hbad
  refine ⟨hrun, ?_, ?_⟩
  · intro v hmem
    rw [hrun] at hmem
    have := enumOut_mem_lt pre b (b + pre.length) v hmem
    omega
  · intro cs hcs
    rw [aio_worker_run_ok cs b hcs]

/-- Witness for C7: a raising callable after one good one kills the loop with
its exception, after a single delivery. -/
theorem callable_exception_escapes_loop_check :
    Aio.worker_thread_run
        (enumItems 0 (([fun _ => Except.ok 1] : List (Call Nat Nat))
          ++ (fun _ => Except.error 42) :: []))
      = (enumOut 0 ([fun _ => Except.ok 1] : List (Call Nat Nat)), WorkerExit.raised 42) :=
  (callable_exception_escapes_loop 0 [fun _ => Except.ok 1] (fun _ => Except.error 42) [] 42
    (by
      intro c hcm
      simp only [List.mem_singleton] at hcm
      subst hcm
      exact ⟨1, rfl⟩)
    rfl).1

end Bench
